import Mathlib

/-!
# github-client: the branch histogram pipeline of `main.go`

A shallow embedding of `main.go` and the properties of its functions.

* Go strings are byte sequences (`GoString`).
* Go `int` is the 64-bit signed integer of a 64-bit target: arithmetic on it goes through
  `wrapInt`.
* A Go `map[string]int` is an association list with unique keys, read with `mapLookup`.
* A function that can panic returns `Option`, `none` being the run-time panic.
* The network and `encoding/json` are outside the program: they are the fields of `Remote`,
  and every theorem about the code holds for every `Remote`.
* The channel `ch` is the sequence of messages in arrival order.
-/

namespace GithubClient

/-! ## Data model -/

/-- A Go `string`: an immutable sequence of bytes. -/
abbrev GoString := List UInt8

/-- The bytes (UTF-8) of a string literal. -/
def str (s : String) : GoString := s.toUTF8.data.toList

/-- The byte `{`, the URI template placeholder delimiter. -/
abbrev lbrace : UInt8 := 123

/-- Go `int` on a 64-bit target: a result is reduced into `[-2^63, 2^63)`. -/
def wrapInt (z : Int) : Int := (z + 2 ^ 63) % 2 ^ 64 - 2 ^ 63

/-- A non-nil Go `error` value. `errorString` is what `errors.New` builds; `library` is an
error built by `net/http` or `encoding/json`, known by its text. -/
inductive GoError where
  | errorString (s : GoString)
  | library (text : GoString)
  deriving DecidableEq

/-- The method `Error()` of an `error` value: its text. -/
def GoError.Error : GoError → GoString
  | .errorString s => s
  | .library text => text

/-- `errors.New(text)`. -/
def errorsNew (text : GoString) : GoError := .errorString text

/-- `type GithubRepo struct`. -/
structure GithubRepo where
  Name : GoString
  BranchesURL : GoString
  deriving DecidableEq

/-- `type GithubBranch struct`. -/
structure GithubBranch where
  Name : GoString
  deriving DecidableEq

/-- `type GithubError struct`. -/
structure GithubError where
  Message : GoString
  deriving DecidableEq

/-- `type Repository struct`; `Error = none` is the nil error, and a nil slice is `[]`. -/
structure Repository where
  Name : GoString
  Branches : List GoString
  Error : Option GoError
  deriving DecidableEq

/-- The part of `*http.Response` the program uses: the status code and the bytes of the body
that have not been read yet. -/
structure HttpResponse where
  StatusCode : Int
  Body : GoString
  deriving DecidableEq

deriving instance DecidableEq for Except

/-- The world outside the program.
* `httpGet url` is `http.Get(url)`: a response, or a transport error.
* `decodeGithubError body` is `json.NewDecoder(body).Decode(&githubError)` on a zero
  `GithubError`: the decoded value or the error, and the bytes of the body left unread.
* `decodeBranches body` is `json.NewDecoder(body).Decode(&branches)` on a nil slice: the
  slice as the call leaves it, the error it returns (`none` for nil), and the bytes left
  unread. -/
structure Remote where
  httpGet : GoString → Except GoError HttpResponse
  decodeGithubError : GoString → Except GoError GithubError × GoString
  decodeBranches : GoString → (List GithubBranch × Option GoError) × GoString

/-! ## `strings.Index` and slicing -/

/-- Search of `strings.Index`: the byte index, counted from `i`, of the first position of `s`
at which `substr` starts, `-1` when there is none. -/
def indexFrom (substr : GoString) : GoString → Int → Int
  | [], i => if substr = [] then i else -1
  | c :: s, i => if substr.isPrefixOf (c :: s) then i else indexFrom substr s (i + 1)

/-- `strings.Index(s, substr)`. -/
def stringsIndex (s substr : GoString) : Int := indexFrom substr s 0

/-- The slice expression `s[:hi]`: a run-time panic (`none`) unless `0 ≤ hi ≤ len(s)`. -/
def sliceTo (s : GoString) (hi : Int) : Option GoString :=
  if 0 ≤ hi ∧ hi ≤ (s.length : Int) then some (s.take hi.toNat) else none

/-- `func prepareBranchURL(url string) string`. -/
def prepareBranchURL (url : GoString) : Option GoString :=
  sliceTo url (stringsIndex url (str "\x7b"))


/-! ## The remote calls -/

/-- `func handleGithubError(httpResponse *http.Response) error`: the error returned (`none`
for nil) and the response as the call leaves it, its body advanced by what was read. -/
def handleGithubError (w : Remote) (httpResponse : HttpResponse) :
    Option GoError × HttpResponse :=
  if httpResponse.StatusCode ≠ 200 then
    match w.decodeGithubError httpResponse.Body with
    | (.error err, rest) => (some err, { httpResponse with Body := rest })
    | (.ok githubError, rest) =>
      (some (errorsNew githubError.Message), { httpResponse with Body := rest })
  else
    (none, httpResponse)

/-- `func fetchBranchesFromGithub(url string) ([]GithubBranch, error)`. -/
def fetchBranchesFromGithub (w : Remote) (url : GoString) :
    List GithubBranch × Option GoError :=
  match w.httpGet url with
  | .error err => ([], some err)
  | .ok httpResponse =>
    match handleGithubError w httpResponse with
    | (some err, _) => ([], some err)
    | (none, httpResponse) =>
      match w.decodeBranches httpResponse.Body with
      | ((branches, some err), _) => (branches, some err)
      | ((branches, none), _) => (branches, none)

/-- `func getBranches(repository GithubRepo, ch chan<- Repository)`: the sequence of messages
the call sends on `ch`, or `none` when it panics (in `prepareBranchURL`, before any send). -/
def getBranches (w : Remote) (repository : GithubRepo) : Option (List Repository) :=
  let repo : Repository := { Name := repository.Name, Branches := [], Error := none }
  match prepareBranchURL repository.BranchesURL with
  | none => none
  | some url =>
    match fetchBranchesFromGithub w url with
    | (branches, err) =>
      let repo := match err with
        | some e => { repo with Error := some e }
        | none => repo
      let repo := branches.foldl
        (fun (repo : Repository) branch =>
          { repo with Branches := repo.Branches ++ [branch.Name] }) repo
      some [repo]

/-! ## The collector -/

/-- What `readRepositoriesFromChannel` leaves behind: the slice it returns, the messages of
the channel it has not received, and the lines it has logged. -/
structure Collected where
  repositories : List Repository
  ch : List Repository
  log : List GoString
  deriving DecidableEq

/-- The line `log.Printf("Error in repository [%s]: %s\n", name, text)` writes, without the
time stamp of the logger. -/
def errorLine (name text : GoString) : GoString :=
  str "Error in repository [" ++ name ++ str "]: " ++ text ++ str "\n"

/-- The loop of `readRepositoriesFromChannel` with `n` iterations to go. A receive on a
channel on which no message will arrive never returns: `none`. -/
def readLoop : Nat → List Repository → List Repository → List GoString → Option Collected
  | 0, ch, repositories, log => some ⟨repositories, ch, log⟩
  | _ + 1, [], _, _ => none
  | n + 1, repo :: ch, repositories, log =>
    match repo.Error with
    | none => readLoop n ch (repositories ++ [repo]) log
    | some err => readLoop n ch repositories (log ++ [errorLine repo.Name err.Error])

/-- `func readRepositoriesFromChannel(ch <-chan Repository, length int) []Repository`: the
loop `for i := 0; i < length; i++` makes `length` iterations, none when `length ≤ 0`. -/
def readRepositoriesFromChannel (ch : List Repository) (length : Int) : Option Collected :=
  readLoop length.toNat ch [] []

/-! ## The histogram -/

/-- A `map[string]int`: the entries, each key once. -/
abbrev GoMap := List (GoString × Int)

/-- The entry of a key, if the map has the key. -/
def mapLookup : GoMap → GoString → Option Int
  | [], _ => none
  | (k, v) :: m, key => if k = key then some v else mapLookup m key

/-- The expression `m[key]`: the zero value when the key is absent. -/
def mapIndex (m : GoMap) (key : GoString) : Int := (mapLookup m key).getD 0

/-- The assignment `m[key] = value`. -/
def mapAssign : GoMap → GoString → Int → GoMap
  | [], key, value => [(key, value)]
  | (k, v) :: m, key, value =>
    if k = key then (k, value) :: m else (k, v) :: mapAssign m key value

/-- The statement `m[key]++`. -/
def mapIncr (m : GoMap) (key : GoString) : GoMap :=
  mapAssign m key (wrapInt (mapIndex m key + 1))

/-- `func getBranchCount(repositories []Repository) map[string]int`. -/
def getBranchCount (repositories : List Repository) : GoMap :=
  repositories.foldl
    (fun counts repo => repo.Branches.foldl (fun counts branch => mapIncr counts branch) counts)
    []

/-- The occurrences of `b` over all the branch lists. -/
def occurrences (repositories : List Repository) (b : GoString) : Nat :=
  (repositories.map (fun repo => repo.Branches.count b)).sum

/-- The number of repositories whose branch list contains `b`. -/
def repositoriesListing (repositories : List Repository) (b : GoString) : Nat :=
  repositories.countP (fun repo => decide (b ∈ repo.Branches))

/-! ## `main` -/

/-- The operands of one division `float64(value) / float64(len(repos))` of `main`. -/
structure Division where
  key : GoString
  value : Int
  denominator : Int
  deriving DecidableEq

/-- The percentage loop of `main` (`for key, value := range counts`): one division for each
entry of `counts := getBranchCount(repos)`. -/
def mainPercentages (repos : List Repository) : List Division :=
  (getBranchCount repos).map (fun kv => ⟨kv.1, kv.2, (repos.length : Int)⟩)

/-- The launch loop of `main` (`go getBranches(repository, ch)` for each repository): the
messages the launched units send, unit by unit in launch order, or `none` when a unit
panics, which ends the program. The order in which the messages reach the collector is any
permutation of this list. -/
def mainLaunch (w : Remote) : List GithubRepo → Option (List Repository)
  | [] => some []
  | repository :: repositories =>
    match getBranches w repository, mainLaunch w repositories with
    | some sent, some others => some (sent ++ others)
    | _, _ => none

/-- The collection step of `main`: `readRepositoriesFromChannel(ch, len(repositories))`. -/
def mainCollect (repositories : List GithubRepo) (ch : List Repository) : Option Collected :=
  readRepositoriesFromChannel ch (repositories.length : Int)

/-! ## A sample remote

Three URLs of a `Remote` that answers as the GitHub API and `encoding/json` do. -/

/-- The body of a `404` answer. -/
def notFoundBody : GoString := str "\x7b\"message\":\"Not Found\"\x7d"

/-- A branch list whose second entry has a number where the name should be. -/
def mistypedBody : GoString :=
  str "[\x7b\"name\":\"main\"\x7d,\x7b\"name\":5\x7d]"

/-- A well-formed branch list. -/
def branchesBody : GoString :=
  str "[\x7b\"name\":\"main\"\x7d,\x7b\"name\":\"dev\"\x7d]"

/-- The error `encoding/json` returns for `mistypedBody`. -/
def mistypedError : GoError :=
  .library (str "json: cannot unmarshal number into Go struct field GithubBranch.name of type string")

/-- The error `encoding/json` returns when a JSON array is decoded into a struct. -/
def arrayIntoStructError : GoError :=
  .library (str "json: cannot unmarshal array into Go value of type main.GithubError")

/-- A remote with three repositories: `a` answers `200` with `branchesBody`, `b` answers
`404` with `notFoundBody`, `c` answers `200` with `mistypedBody`; any other URL is
unreachable. `decodeBranches` on `mistypedBody` is what `Decode` documents for a value of the
wrong type: it skips the field, completes the rest, and returns the error. -/
def sampleRemote : Remote where
  httpGet url :=
    if url = str "https://api.github.com/repos/o/a/branches" then .ok ⟨200, branchesBody⟩
    else if url = str "https://api.github.com/repos/o/b/branches" then .ok ⟨404, notFoundBody⟩
    else if url = str "https://api.github.com/repos/o/c/branches" then .ok ⟨200, mistypedBody⟩
    else .error (.library (str "dial tcp: connection refused"))
  decodeGithubError body :=
    if body = notFoundBody then (.ok ⟨str "Not Found"⟩, [])
    else (.error arrayIntoStructError, [])
  decodeBranches body :=
    if body = branchesBody then (([⟨str "main"⟩, ⟨str "dev"⟩], none), [])
    else if body = mistypedBody then (([⟨str "main"⟩, ⟨str ""⟩], some mistypedError), [])
    else (([], some (.library (str "unexpected end of JSON input"))), [])

/-- The descriptor of repository `a`. -/
def repoA : GithubRepo := ⟨str "a", str "https://api.github.com/repos/o/a/branches\x7b/branch\x7d"⟩

/-- The descriptor of repository `b`. -/
def repoB : GithubRepo := ⟨str "b", str "https://api.github.com/repos/o/b/branches\x7b/branch\x7d"⟩

/-- The descriptor of repository `c`. -/
def repoC : GithubRepo := ⟨str "c", str "https://api.github.com/repos/o/c/branches\x7b/branch\x7d"⟩

/-- Whether a message is a success: `repo.Error == nil`. -/
def succeeded (repo : Repository) : Bool := repo.Error.isNone

/-- The line the collector logs for a message, if it logs one. -/
def failureLine (repo : Repository) : Option GoString :=
  repo.Error.map (fun err => errorLine repo.Name err.Error)

/-- Two successful results: branches `main`, and `main` with `feature`. -/
def twoRepositories : List Repository :=
  [⟨str "a", [str "main"], none⟩, ⟨str "b", [str "main", str "feature"], none⟩]

/-- One successful result whose branch list names `main` twice. -/
def repeatedBranch : List Repository :=
  [⟨str "a", [str "main", str "main"], none⟩]

/-- A channel on which a success, a failure and a success arrive. -/
def sampleChannel : List Repository :=
  [⟨str "a", [str "main", str "dev"], none⟩,
   ⟨str "b", [], some (errorsNew (str "Not Found"))⟩,
   ⟨str "c", [str "main"], none⟩]

/-- A descriptor whose branch list locator has no placeholder. -/
def repoD : GithubRepo := ⟨str "d", str "https://api.github.com/repos/o/d/branches"⟩

/-! ## Theorems -/

theorem str_lbrace : str "\x7b" = [lbrace] := by decide

theorem indexFrom_absent (s : GoString) (i : Int) (h : lbrace ∉ s) :
    indexFrom [lbrace] s i = -1 := by
  induction s generalizing i with
  | nil => simp [indexFrom]
  | cons c s ih =>
    have hc : c ≠ lbrace := fun e => h (by simp [e])
    have hs : lbrace ∉ s := fun e => h (by simp [e])
    have hc2 : ¬ (lbrace = c) := fun e => hc e.symm
    simp [indexFrom, List.isPrefixOf, hc2, ih _ hs]

theorem indexFrom_first (p rest : GoString) (i : Int) (h : lbrace ∉ p) :
    indexFrom [lbrace] (p ++ lbrace :: rest) i = i + p.length := by
  induction p generalizing i with
  | nil => simp [indexFrom, List.isPrefixOf]
  | cons c p ih =>
    have hc : ¬ (lbrace = c) := fun e => h (by simp [e])
    have hp : lbrace ∉ p := fun e => h (by simp [e])
    simp [indexFrom, List.isPrefixOf, hc, ih _ hp]
    omega

theorem prepareBranchURL_first (p rest : GoString) (h : lbrace ∉ p) :
    prepareBranchURL (p ++ lbrace :: rest) = some p := by
  unfold prepareBranchURL stringsIndex
  rw [str_lbrace, indexFrom_first p rest 0 h]
  simp [sliceTo]
  omega

theorem prepareBranchURL_absent (u : GoString) (h : lbrace ∉ u) :
    stringsIndex u (str "\x7b") = -1 ∧ prepareBranchURL u = none := by
  have h1 : stringsIndex u (str "\x7b") = -1 := by
    unfold stringsIndex
    rw [str_lbrace, indexFrom_absent u 0 h]
  refine ⟨h1, ?_⟩
  unfold prepareBranchURL
  rw [h1]
  simp [sliceTo]

/-- C1: for a URL `u` that contains `{`, `prepareBranchURL u` returns the part of `u` before
the first `{`: the result has no `{` and `u` is the result, then `{`, then a remainder. -/
theorem prepareBranchURL_truncates (u : GoString) (h : lbrace ∈ u) :
    ∃ p rest, prepareBranchURL u = some p ∧ lbrace ∉ p ∧ u = p ++ lbrace :: rest := by
  obtain ⟨p, rest, hu, hp⟩ := List.eq_append_cons_of_mem h
  exact ⟨p, rest, by rw [hu]; exact prepareBranchURL_first p rest hp, hp, hu⟩

/-- C1, at the branch list locator `.../branches{/branch}`: the result is `.../branches`. -/
theorem prepareBranchURL_truncates_witness :
    lbrace ∈ str "https://api.github.com/repos/o/a/branches\x7b/branch\x7d" ∧
    prepareBranchURL (str "https://api.github.com/repos/o/a/branches\x7b/branch\x7d")
      = some (str "https://api.github.com/repos/o/a/branches") ∧
    ∃ p rest, prepareBranchURL (str "https://api.github.com/repos/o/a/branches\x7b/branch\x7d")
        = some p ∧ lbrace ∉ p ∧
      str "https://api.github.com/repos/o/a/branches\x7b/branch\x7d" = p ++ lbrace :: rest :=
  ⟨by decide, by decide, prepareBranchURL_truncates _ (by decide)⟩

/-- C10: `prepareBranchURL` panics exactly on the URLs with no `{`. On such a URL
`strings.Index` yields `-1`, the slice `url[:-1]` is out of range, and the input is not passed
through; on a URL with a `{` the call returns. -/
theorem prepareBranchURL_panics_iff (u : GoString) :
    (prepareBranchURL u = none ↔ lbrace ∉ u) ∧
    (stringsIndex u (str "\x7b") = -1 ↔ lbrace ∉ u) ∧
    (sliceTo u (-1) = none) ∧
    (prepareBranchURL u ≠ some u) ∧
    ((prepareBranchURL u).isSome ↔ lbrace ∈ u) := by
  by_cases h : lbrace ∈ u
  · obtain ⟨p, rest, hu, hb⟩ := List.eq_append_cons_of_mem h
    have hp : prepareBranchURL u = some p := by rw [hu]; exact prepareBranchURL_first p rest hb
    have hidx : stringsIndex u (str "\x7b") = (p.length : Int) := by
      unfold stringsIndex
      rw [str_lbrace, hu, indexFrom_first p rest 0 hb]
      simp
    have hne : p ≠ u := fun e => hb (e ▸ h)
    refine ⟨?_, ?_, by simp [sliceTo], ?_, ?_⟩
    · simp [hp, h]
    · rw [hidx]
      constructor
      · intro e; omega
      · intro e; exact absurd h e
    · simp [hp, hne]
    · simp [hp, h]
  · obtain ⟨h1, h2⟩ := prepareBranchURL_absent u h
    refine ⟨?_, ?_, by simp [sliceTo], ?_, ?_⟩
    · simp [h2, h]
    · simp [h1, h]
    · simp [h2]
    · simp [h2, h]



/-! ### The histogram -/

theorem wrapInt_add (a b : Int) : wrapInt (wrapInt a + b) = wrapInt (a + b) := by
  unfold wrapInt
  norm_num
  omega

theorem wrapInt_small (n : Nat) (h : n < 2 ^ 63) : wrapInt (n : Int) = (n : Int) := by
  unfold wrapInt
  norm_num at h ⊢
  omega

theorem mapLookup_assign_same (m : GoMap) (key : GoString) (value : Int) :
    mapLookup (mapAssign m key value) key = some value := by
  induction m with
  | nil => simp [mapAssign, mapLookup]
  | cons kv m ih =>
    obtain ⟨k, v⟩ := kv
    by_cases hk : k = key
    · simp [mapAssign, mapLookup, hk]
    · simp [mapAssign, mapLookup, hk, ih]

theorem mapLookup_assign_other (m : GoMap) (key other : GoString) (value : Int)
    (h : key ≠ other) : mapLookup (mapAssign m key value) other = mapLookup m other := by
  induction m with
  | nil => simp [mapAssign, mapLookup, h]
  | cons kv m ih =>
    obtain ⟨k, v⟩ := kv
    by_cases hk : k = key
    · subst hk
      simp [mapAssign, mapLookup, h]
    · by_cases ho : k = other
      · subst ho
        simp [mapAssign, mapLookup, hk]
      · simp [mapAssign, mapLookup, hk, ho, ih]

theorem mapLookup_foldl_incr (bs : List GoString) (m : GoMap) (b : GoString) :
    mapLookup (bs.foldl (fun counts branch => mapIncr counts branch) m) b =
      if bs.count b = 0 then mapLookup m b
      else some (wrapInt (mapIndex m b + (bs.count b : Nat))) := by
  induction bs generalizing m with
  | nil => simp
  | cons x bs ih =>
    rw [List.foldl_cons, ih]
    by_cases hx : x = b
    · subst hx
      have h1 : mapLookup (mapIncr m x) x = some (wrapInt (mapIndex m x + 1)) := by
        unfold mapIncr
        exact mapLookup_assign_same _ _ _
      have h2 : mapIndex (mapIncr m x) x = wrapInt (mapIndex m x + 1) := by
        unfold mapIndex
        rw [h1]
        rfl
      rw [h1, h2, wrapInt_add]
      by_cases hc : List.count x bs = 0
      · simp [hc]
      · simp [hc]
        congr 1
        omega
    · have h1 : mapLookup (mapIncr m x) b = mapLookup m b := by
        unfold mapIncr
        exact mapLookup_assign_other _ _ _ _ hx
      have h2 : mapIndex (mapIncr m x) b = mapIndex m b := by
        unfold mapIndex
        rw [h1]
      rw [h1, h2]
      have hc : List.count b (x :: bs) = List.count b bs := by
        simp [List.count_cons, hx]
      rw [hc]

theorem mapLookup_foldl_repositories (repositories : List Repository) (m : GoMap)
    (b : GoString) :
    mapLookup (repositories.foldl
        (fun counts repo =>
          repo.Branches.foldl (fun counts branch => mapIncr counts branch) counts) m) b =
      if occurrences repositories b = 0 then mapLookup m b
      else some (wrapInt (mapIndex m b + (occurrences repositories b : Nat))) := by
  induction repositories generalizing m with
  | nil => simp [occurrences]
  | cons repo repositories ih =>
    rw [List.foldl_cons, ih]
    have hocc : occurrences (repo :: repositories) b =
        repo.Branches.count b + occurrences repositories b := by
      simp [occurrences]
    rw [hocc, mapLookup_foldl_incr]
    by_cases h1 : List.count b repo.Branches = 0
    · have hidx : mapIndex (List.foldl (fun counts branch => mapIncr counts branch) m
          repo.Branches) b = mapIndex m b := by
        unfold mapIndex
        rw [mapLookup_foldl_incr, if_pos h1]
      rw [hidx]
      simp [h1]
    · have hidx : mapIndex (List.foldl (fun counts branch => mapIncr counts branch) m
          repo.Branches) b = wrapInt (mapIndex m b + (List.count b repo.Branches : Nat)) := by
        unfold mapIndex
        rw [mapLookup_foldl_incr, if_neg h1]
        rfl
      rw [hidx, wrapInt_add]
      by_cases h2 : occurrences repositories b = 0
      · simp [h1, h2]
      · simp [h1, h2]
        congr 1
        omega

/-- The entry of `b` in the histogram: absent when `b` never occurs, else the wrapped
number of its occurrences. -/
theorem mapLookup_getBranchCount (repositories : List Repository) (b : GoString) :
    mapLookup (getBranchCount repositories) b =
      if occurrences repositories b = 0 then none
      else some (wrapInt (occurrences repositories b : Nat)) := by
  unfold getBranchCount
  rw [mapLookup_foldl_repositories]
  simp [mapLookup, mapIndex]

theorem occurrences_eq_zero (repositories : List Repository) (b : GoString) :
    occurrences repositories b = 0 ↔ ¬ ∃ repo ∈ repositories, b ∈ repo.Branches := by
  induction repositories with
  | nil => simp [occurrences]
  | cons repo repositories ih =>
    have hocc : occurrences (repo :: repositories) b =
        repo.Branches.count b + occurrences repositories b := by
      simp [occurrences]
    rw [hocc, Nat.add_eq_zero_iff, ih, List.count_eq_zero]
    simp

theorem count_nodup_mem (l : List GoString) (b : GoString) (hnd : l.Nodup) (hb : b ∈ l) :
    l.count b = 1 := by
  induction l with
  | nil => simp at hb
  | cons x l ih =>
    rw [List.nodup_cons] at hnd
    rw [List.count_cons]
    by_cases hx : x = b
    · subst hx
      simp [List.count_eq_zero.mpr hnd.1]
    · have hb2 : b ∈ l := by
        rcases List.mem_cons.mp hb with e | e
        · exact absurd e.symm hx
        · exact e
      simp [ih hnd.2 hb2, hx]

theorem occurrences_nodup (repositories : List Repository) (b : GoString)
    (h : ∀ repo ∈ repositories, repo.Branches.Nodup) :
    occurrences repositories b = repositoriesListing repositories b := by
  induction repositories with
  | nil => simp [occurrences, repositoriesListing]
  | cons repo repositories ih =>
    have hocc : occurrences (repo :: repositories) b =
        repo.Branches.count b + occurrences repositories b := by
      simp [occurrences]
    have hnd : repo.Branches.Nodup := h repo (by simp)
    have ih2 := ih (fun r hr => h r (by simp [hr]))
    rw [hocc, ih2]
    unfold repositoriesListing
    by_cases hb : b ∈ repo.Branches
    · rw [List.countP_cons_of_pos _ _ (by simpa using hb), count_nodup_mem _ _ hnd hb]
      omega
    · rw [List.countP_cons_of_neg _ _ (by simpa using hb), List.count_eq_zero.mpr hb]
      omega

/-- C3: when the occurrences of `b` fit a Go `int`, the histogram maps `b` to the number of
occurrences of `b` over all the branch lists, each occurrence counted, and `b` is a key
exactly when some list contains it. -/
theorem getBranchCount_counts_occurrences (repositories : List Repository) (b : GoString)
    (h : occurrences repositories b < 2 ^ 63) :
    mapIndex (getBranchCount repositories) b = (occurrences repositories b : Int) ∧
    ((mapLookup (getBranchCount repositories) b).isSome ↔
      ∃ repo ∈ repositories, b ∈ repo.Branches) ∧
    ((∃ repo ∈ repositories, b ∈ repo.Branches) →
      mapLookup (getBranchCount repositories) b = some (occurrences repositories b : Int)) := by
  have hl := mapLookup_getBranchCount repositories b
  have hz := occurrences_eq_zero repositories b
  rw [wrapInt_small _ h] at hl
  by_cases h0 : occurrences repositories b = 0
  · have hno := hz.mp h0
    rw [if_pos h0] at hl
    refine ⟨by simp [mapIndex, hl, h0], by simp [hl, hno], fun hex => absurd hex hno⟩
  · have hex : ∃ repo ∈ repositories, b ∈ repo.Branches := by
      by_contra hc
      exact h0 (hz.mpr hc)
    rw [if_neg h0] at hl
    refine ⟨by simp [mapIndex, hl], by simp only [hl, Option.isSome_some, true_iff]; exact hex,
      fun _ => hl⟩

/-- C3, at the lists `["main"]` and `["main","feature"]`: the histogram is
`{main:2, feature:1}`. -/
theorem getBranchCount_counts_occurrences_witness :
    occurrences twoRepositories (str "main") < 2 ^ 63 ∧
    getBranchCount twoRepositories = [(str "main", 2), (str "feature", 1)] ∧
    (mapIndex (getBranchCount twoRepositories) (str "main")
        = (occurrences twoRepositories (str "main") : Int) ∧
      ((mapLookup (getBranchCount twoRepositories) (str "main")).isSome ↔
        ∃ repo ∈ twoRepositories, str "main" ∈ repo.Branches) ∧
      ((∃ repo ∈ twoRepositories, str "main" ∈ repo.Branches) →
        mapLookup (getBranchCount twoRepositories) (str "main")
          = some (occurrences twoRepositories (str "main") : Int))) :=
  ⟨by decide, by decide,
    getBranchCount_counts_occurrences twoRepositories (str "main") (by decide)⟩

/-- C2 fails: a branch list that names `main` twice gives `main` the count 2, and one
repository lists `main`. -/
theorem getBranchCount_repeated_branch :
    mapLookup (getBranchCount repeatedBranch) (str "main") = some 2 ∧
    repositoriesListing repeatedBranch (str "main") = 1 ∧
    mapIndex (getBranchCount repeatedBranch) (str "main")
      ≠ (repositoriesListing repeatedBranch (str "main") : Int) := by
  decide

/-- C2, amended: when no branch list names a branch twice (and the count fits a Go `int`),
the histogram maps `b` to the number of repositories whose branch list contains `b`, and
`b` is absent from the map exactly when no repository lists it. -/
theorem getBranchCount_counts_repositories (repositories : List Repository) (b : GoString)
    (hnd : ∀ repo ∈ repositories, repo.Branches.Nodup)
    (h : repositoriesListing repositories b < 2 ^ 63) :
    mapIndex (getBranchCount repositories) b = (repositoriesListing repositories b : Int) ∧
    (mapLookup (getBranchCount repositories) b = none ↔
      ¬ ∃ repo ∈ repositories, b ∈ repo.Branches) ∧
    ((∃ repo ∈ repositories, b ∈ repo.Branches) →
      mapLookup (getBranchCount repositories) b
        = some (repositoriesListing repositories b : Int)) := by
  have hl := mapLookup_getBranchCount repositories b
  have hz := occurrences_eq_zero repositories b
  have hn := occurrences_nodup repositories b hnd
  rw [hn] at hl hz
  rw [wrapInt_small _ h] at hl
  by_cases h0 : repositoriesListing repositories b = 0
  · have hno := hz.mp h0
    rw [if_pos h0] at hl
    refine ⟨by simp [mapIndex, hl, h0], by simp only [hl, true_iff]; exact hno,
      fun hex => absurd hex hno⟩
  · have hex : ∃ repo ∈ repositories, b ∈ repo.Branches := by
      by_contra hc
      exact h0 (hz.mpr hc)
    rw [if_neg h0] at hl
    refine ⟨by simp [mapIndex, hl], ?_, fun _ => hl⟩
    constructor
    · intro e
      rw [hl] at e
      exact absurd e (by simp)
    · intro e
      exact absurd hex e

/-- C2, amended, at the lists `["main"]` and `["main","feature"]` and the branch `main`. -/
theorem getBranchCount_counts_repositories_witness :
    (∀ repo ∈ twoRepositories, repo.Branches.Nodup) ∧
    repositoriesListing twoRepositories (str "main") = 2 ∧
    (mapIndex (getBranchCount twoRepositories) (str "main")
        = (repositoriesListing twoRepositories (str "main") : Int) ∧
      (mapLookup (getBranchCount twoRepositories) (str "main") = none ↔
        ¬ ∃ repo ∈ twoRepositories, str "main" ∈ repo.Branches) ∧
      ((∃ repo ∈ twoRepositories, str "main" ∈ repo.Branches) →
        mapLookup (getBranchCount twoRepositories) (str "main")
          = some (repositoriesListing twoRepositories (str "main") : Int))) :=
  ⟨by decide, by decide,
    getBranchCount_counts_repositories twoRepositories (str "main") (by decide) (by decide)⟩

/-- C8: on an empty sequence the histogram is empty and the percentage loop makes no
division; for every sequence, a histogram with a key comes from a non-empty sequence, and
every division the loop makes has the denominator `len(repos)`, at least 1. -/
theorem mainPercentages_denominator (repos : List Repository) :
    (repos = [] → getBranchCount repos = [] ∧ mainPercentages repos = []) ∧
    (getBranchCount repos ≠ [] → 1 ≤ repos.length) ∧
    (∀ d ∈ mainPercentages repos, d.denominator = (repos.length : Int) ∧ 1 ≤ d.denominator) := by
  cases repos with
  | nil =>
    refine ⟨fun _ => ⟨rfl, rfl⟩, fun hne => absurd rfl hne, ?_⟩
    intro d hd
    simp [mainPercentages, getBranchCount] at hd
  | cons repo repos =>
    refine ⟨fun e => absurd e (by simp), fun _ => by simp, ?_⟩
    intro d hd
    simp only [mainPercentages, List.mem_map] at hd
    obtain ⟨kv, _, rfl⟩ := hd
    simp

/-- C8, at the empty sequence and at a sequence of two successful results. -/
theorem mainPercentages_denominator_witness :
    (getBranchCount [] = [] ∧ mainPercentages [] = []) ∧
    getBranchCount twoRepositories ≠ [] ∧ 1 ≤ twoRepositories.length ∧
    mainPercentages twoRepositories = [⟨str "main", 2, 2⟩, ⟨str "feature", 1, 2⟩] :=
  ⟨(mainPercentages_denominator []).1 rfl, by decide,
    (mainPercentages_denominator twoRepositories).2.1 (by decide), by decide⟩

/-! ### The collector -/

theorem readLoop_enough (n : Nat) (ch repositories : List Repository) (log : List GoString)
    (h : n ≤ ch.length) :
    readLoop n ch repositories log =
      some ⟨repositories ++ (ch.take n).filter succeeded, ch.drop n,
        log ++ (ch.take n).filterMap failureLine⟩ := by
  induction n generalizing ch repositories log with
  | zero => simp [readLoop]
  | succ n ih =>
    cases ch with
    | nil => simp at h
    | cons repo ch =>
      have hn : n ≤ ch.length := by simpa using h
      cases he : repo.Error with
      | none =>
        simp [readLoop, he, ih _ _ _ hn, succeeded, failureLine, List.filterMap_cons]
      | some err =>
        simp [readLoop, he, ih _ _ _ hn, succeeded, failureLine, List.filterMap_cons]

/-- C4: on a channel that carries at least `N` messages, `readRepositoriesFromChannel(ch, N)`
returns, having received the first `N` messages and no other; the slice it returns is the
messages among them whose `Error` is nil, in arrival order. A message with a non-nil `Error`
is not in the slice, so it is not in the input of `getBranchCount`, the histogram is the one
of the successful messages alone, and the denominator `len(repos)` counts only them. -/
theorem readRepositoriesFromChannel_keeps_successes (ch : List Repository) (N : Nat)
    (h : N ≤ ch.length) :
    ∃ res, readRepositoriesFromChannel ch (N : Int) = some res ∧
      res.repositories = (ch.take N).filter succeeded ∧
      res.ch = ch.drop N ∧
      res.log = (ch.take N).filterMap failureLine ∧
      (∀ repo ∈ res.repositories, repo.Error = none) ∧
      (∀ repo ∈ ch, repo.Error ≠ none → repo ∉ res.repositories) ∧
      (∀ b, mapLookup (getBranchCount res.repositories) b =
        if occurrences ((ch.take N).filter succeeded) b = 0 then none
        else some (wrapInt (occurrences ((ch.take N).filter succeeded) b : Nat))) ∧
      res.repositories.length = (ch.take N).countP succeeded ∧
      (∀ d ∈ mainPercentages res.repositories,
        d.denominator = (((ch.take N).countP succeeded : Nat) : Int)) := by
  refine ⟨⟨(ch.take N).filter succeeded, ch.drop N, (ch.take N).filterMap failureLine⟩,
    ?_, rfl, rfl, rfl, ?_, ?_, fun b => mapLookup_getBranchCount _ b, ?_, ?_⟩
  · unfold readRepositoriesFromChannel
    rw [Int.toNat_ofNat, readLoop_enough N ch [] [] h]
    simp
  · intro repo hrepo
    have := (List.mem_filter.mp hrepo).2
    simpa [succeeded] using this
  · intro repo _ hne hrepo
    have := (List.mem_filter.mp hrepo).2
    exact hne (by simpa [succeeded] using this)
  · simp [List.countP_eq_length_filter]
  · intro d hd
    simp only [mainPercentages, List.mem_map] at hd
    obtain ⟨kv, _, rfl⟩ := hd
    simp [List.countP_eq_length_filter]

/-- C4, on a channel where a success, a failure and a success arrive, read with `N = 2`. -/
theorem readRepositoriesFromChannel_keeps_successes_witness :
    2 ≤ sampleChannel.length ∧
    readRepositoriesFromChannel sampleChannel 2 =
      some ⟨[⟨str "a", [str "main", str "dev"], none⟩],
        [⟨str "c", [str "main"], none⟩],
        [str "Error in repository [b]: Not Found\n"]⟩ ∧
    ∃ res, readRepositoriesFromChannel sampleChannel ((2 : Nat) : Int) = some res ∧
      res.repositories = (sampleChannel.take 2).filter succeeded ∧
      res.ch = sampleChannel.drop 2 ∧
      res.log = (sampleChannel.take 2).filterMap failureLine ∧
      (∀ repo ∈ res.repositories, repo.Error = none) ∧
      (∀ repo ∈ sampleChannel, repo.Error ≠ none → repo ∉ res.repositories) ∧
      (∀ b, mapLookup (getBranchCount res.repositories) b =
        if occurrences ((sampleChannel.take 2).filter succeeded) b = 0 then none
        else some (wrapInt (occurrences ((sampleChannel.take 2).filter succeeded) b : Nat))) ∧
      res.repositories.length = (sampleChannel.take 2).countP succeeded ∧
      (∀ d ∈ mainPercentages res.repositories,
        d.denominator = (((sampleChannel.take 2).countP succeeded : Nat) : Int)) :=
  ⟨by decide, by decide, readRepositoriesFromChannel_keeps_successes sampleChannel 2 (by decide)⟩

/-! ### The remote calls -/

theorem foldl_append_names (branches : List GithubBranch) (repo : Repository) :
    branches.foldl
        (fun (repo : Repository) branch =>
          { repo with Branches := repo.Branches ++ [branch.Name] }) repo =
      { repo with Branches := repo.Branches ++ branches.map (fun branch => branch.Name) } := by
  induction branches generalizing repo with
  | nil => simp
  | cons branch branches ih => simp [ih]

/-- The one message `getBranches` sends: the name, the names of all the branches the fetch
returned, and the error the fetch returned. -/
theorem getBranches_sends (w : Remote) (repository : GithubRepo) (url : GoString)
    (h : prepareBranchURL repository.BranchesURL = some url) :
    getBranches w repository =
      some [⟨repository.Name,
        (fetchBranchesFromGithub w url).1.map (fun branch => branch.Name),
        (fetchBranchesFromGithub w url).2⟩] := by
  unfold getBranches
  rw [h]
  rcases hf : fetchBranchesFromGithub w url with ⟨branches, err⟩
  cases err <;> simp [hf, foldl_append_names]

/-- On a transport error and on a status other than 200 the fetch returns no branch. -/
theorem fetchBranchesFromGithub_no_branches (w : Remote) (url : GoString) :
    (∀ err, w.httpGet url = .error err → fetchBranchesFromGithub w url = ([], some err)) ∧
    (∀ r, w.httpGet url = .ok r → r.StatusCode ≠ 200 →
      ∃ err, fetchBranchesFromGithub w url = ([], some err)) := by
  constructor
  · intro err h
    simp [fetchBranchesFromGithub, h]
  · intro r h hs
    unfold fetchBranchesFromGithub handleGithubError
    rw [h]
    simp only [hs, ne_eq, not_false_eq_true, if_true]
    rcases hd : w.decodeGithubError r.Body with ⟨res, rest⟩
    cases res with
    | error e => exact ⟨e, rfl⟩
    | ok g => exact ⟨errorsNew g.Message, rfl⟩

/-- C5 fails on a decode error: for repository `c`, whose branch list has a mistyped second
entry, the fetch returns the error together with the branches decoded so far, and the message
`getBranches` sends has both the error and a non-empty `Branches`. -/
theorem getBranches_error_with_branches :
    fetchBranchesFromGithub sampleRemote (str "https://api.github.com/repos/o/c/branches")
      = ([⟨str "main"⟩, ⟨str ""⟩], some mistypedError) ∧
    getBranches sampleRemote repoC
      = some [⟨str "c", [str "main", str ""], some mistypedError⟩] := by
  decide

/-- C6: on a status code other than 200 (every non-2xx code is one), when the body decodes
to an error payload, `handleGithubError` returns the error `errors.New(message)`, whose text
is the message; when the body does not decode, it returns the decode error. -/
theorem handleGithubError_message (w : Remote) (r : HttpResponse) (h : r.StatusCode ≠ 200) :
    (∀ g rest, w.decodeGithubError r.Body = (.ok g, rest) →
      ∃ e, (handleGithubError w r).1 = some e ∧ e = errorsNew g.Message ∧
        e.Error = g.Message) ∧
    (∀ err rest, w.decodeGithubError r.Body = (.error err, rest) →
      (handleGithubError w r).1 = some err) := by
  constructor
  · intro g rest hd
    refine ⟨errorsNew g.Message, ?_, rfl, rfl⟩
    simp [handleGithubError, h, hd]
  · intro err rest hd
    simp [handleGithubError, h, hd]

/-- C6, at a `404` response with the body `{"message":"Not Found"}`: the error text is
`Not Found`; and at a `500` response whose body is not an error payload: the decode error. -/
theorem handleGithubError_message_witness :
    ((404 : Int) ≠ 200 ∧
      sampleRemote.decodeGithubError notFoundBody = (.ok ⟨str "Not Found"⟩, []) ∧
      ∃ e, (handleGithubError sampleRemote ⟨404, notFoundBody⟩).1 = some e ∧
        e = errorsNew (str "Not Found") ∧ e.Error = str "Not Found") ∧
    (sampleRemote.decodeGithubError (str "[]") = (.error arrayIntoStructError, []) ∧
      (handleGithubError sampleRemote ⟨500, str "[]"⟩).1 = some arrayIntoStructError) :=
  ⟨⟨by decide, by decide,
      (handleGithubError_message sampleRemote ⟨404, notFoundBody⟩ (by decide)).1
        ⟨str "Not Found"⟩ [] (by decide)⟩,
    by decide,
    (handleGithubError_message sampleRemote ⟨500, str "[]"⟩ (by decide)).2
      arrayIntoStructError [] (by decide)⟩

/-- C7 fails: a response with the status code 201, a 2xx code, is treated as an error. -/
theorem handleGithubError_status_201 :
    (200 : Int) ≤ 201 ∧ (201 : Int) ≤ 299 ∧
    (handleGithubError sampleRemote ⟨201, branchesBody⟩).1 = some arrayIntoStructError ∧
    (handleGithubError sampleRemote ⟨201, branchesBody⟩).1 ≠ none := by
  decide

/-- C7, amended: `handleGithubError` treats a response as an error exactly when its status
code is not 200. On the status code 200 it returns nil and leaves the body unread, and the
caller decodes that body as the success payload; on any other status code it returns an
error. -/
theorem handleGithubError_nil_iff (w : Remote) (r : HttpResponse) :
    ((handleGithubError w r).1 = none ↔ r.StatusCode = 200) ∧
    (r.StatusCode = 200 → handleGithubError w r = (none, r)) ∧
    (r.StatusCode = 200 → ∀ url, w.httpGet url = .ok r →
      fetchBranchesFromGithub w url = (w.decodeBranches r.Body).1) := by
  by_cases hs : r.StatusCode = 200
  · have h1 : handleGithubError w r = (none, r) := by simp [handleGithubError, hs]
    refine ⟨by simp [h1, hs], fun _ => h1, ?_⟩
    intro _ url hget
    unfold fetchBranchesFromGithub
    rw [hget]
    simp only [h1]
    rcases hd : w.decodeBranches r.Body with ⟨⟨branches, err⟩, rest⟩
    cases err <;> rfl
  · refine ⟨?_, fun e => absurd e hs, fun e => absurd e hs⟩
    constructor
    · intro hnone
      exfalso
      unfold handleGithubError at hnone
      simp only [ne_eq, hs, not_false_eq_true, if_true] at hnone
      rcases hd : w.decodeGithubError r.Body with ⟨res, rest⟩
      rw [hd] at hnone
      cases res <;> simp at hnone
    · intro e
      exact absurd e hs

/-- C7, amended, at the `200` response of repository `a`. -/
theorem handleGithubError_nil_iff_witness :
    ((handleGithubError sampleRemote ⟨200, branchesBody⟩).1 = none ↔ (200 : Int) = 200) ∧
    handleGithubError sampleRemote ⟨200, branchesBody⟩ = (none, ⟨200, branchesBody⟩) ∧
    fetchBranchesFromGithub sampleRemote (str "https://api.github.com/repos/o/a/branches")
      = ([⟨str "main"⟩, ⟨str "dev"⟩], none) :=
  ⟨(handleGithubError_nil_iff sampleRemote ⟨200, branchesBody⟩).1,
    (handleGithubError_nil_iff sampleRemote ⟨200, branchesBody⟩).2.1 rfl,
    ((handleGithubError_nil_iff sampleRemote ⟨200, branchesBody⟩).2.2 rfl
      (str "https://api.github.com/repos/o/a/branches") (by decide)).trans (by decide)⟩

/-! ### `main`: launch and collection -/

theorem getBranches_one_message (w : Remote) (repository : GithubRepo)
    (h : lbrace ∈ repository.BranchesURL) : ∃ m, getBranches w repository = some [m] := by
  obtain ⟨p, rest, hu, hp⟩ := List.eq_append_cons_of_mem h
  have hprep : prepareBranchURL repository.BranchesURL = some p := by
    rw [hu]
    exact prepareBranchURL_first p rest hp
  exact ⟨_, getBranches_sends w repository p hprep⟩

theorem mainLaunch_sends (w : Remote) (repositories : List GithubRepo)
    (h : ∀ repository ∈ repositories, lbrace ∈ repository.BranchesURL) :
    ∃ sent, mainLaunch w repositories = some sent ∧
      List.Forall₂ (fun repository m => getBranches w repository = some [m])
        repositories sent := by
  induction repositories with
  | nil => exact ⟨[], rfl, List.Forall₂.nil⟩
  | cons repository repositories ih =>
    obtain ⟨sent, hsent, hall⟩ := ih (fun r hr => h r (by simp [hr]))
    obtain ⟨m, hm⟩ := getBranches_one_message w repository (h repository (by simp))
    refine ⟨m :: sent, ?_, List.Forall₂.cons hm hall⟩
    simp [mainLaunch, hm, hsent]

theorem kept_add_logged (ch : List Repository) :
    (ch.filter succeeded).length + (ch.filterMap failureLine).length = ch.length := by
  induction ch with
  | nil => rfl
  | cons repo ch ih =>
    cases he : repo.Error with
    | none =>
      simp [List.filter_cons, List.filterMap_cons, succeeded, failureLine, he]
      omega
    | some err =>
      simp [List.filter_cons, List.filterMap_cons, succeeded, failureLine, he]
      omega

/-- C9 fails: the unit launched for a repository whose locator has no `{` panics in
`prepareBranchURL` and sends nothing, and the program ends without the collection. -/
theorem getBranches_panics_without_placeholder :
    lbrace ∉ repoD.BranchesURL ∧
    getBranches sampleRemote repoD = none ∧
    (¬ ∃ m, getBranches sampleRemote repoD = some [m]) ∧
    mainLaunch sampleRemote [repoA, repoD] = none := by
  have hnone : getBranches sampleRemote repoD = none := by decide
  refine ⟨by decide, hnone, ?_, by decide⟩
  rintro ⟨m, hm⟩
  rw [hnone] at hm
  cases hm

/-- C9, amended: for every list of `N` repositories whose branch list locators all contain
`{`, each launched `getBranches` unit sends exactly one `Repository`, whether its fetch
succeeds or fails; and in whatever order the `N` messages arrive, the collector returns
having received all of them and no other: no message is left on the channel, and each
message received is either kept or logged. -/
theorem main_receives_one_per_unit (w : Remote) (repositories : List GithubRepo)
    (h : ∀ repository ∈ repositories, lbrace ∈ repository.BranchesURL) :
    ∃ sent, mainLaunch w repositories = some sent ∧
      List.Forall₂ (fun repository m => getBranches w repository = some [m])
        repositories sent ∧
      sent.length = repositories.length ∧
      ∀ ch : List Repository, ch.Perm sent →
        ∃ res, mainCollect repositories ch = some res ∧
          res.ch = [] ∧
          res.repositories = ch.filter succeeded ∧
          res.log = ch.filterMap failureLine ∧
          res.repositories.length + res.log.length = repositories.length := by
  obtain ⟨sent, hsent, hall⟩ := mainLaunch_sends w repositories h
  have hlen : sent.length = repositories.length := hall.length_eq.symm
  refine ⟨sent, hsent, hall, hlen, ?_⟩
  intro ch hperm
  have hch : ch.length = repositories.length := by rw [hperm.length_eq, hlen]
  refine ⟨⟨ch.filter succeeded, [], ch.filterMap failureLine⟩, ?_, rfl, rfl, rfl, ?_⟩
  · unfold mainCollect readRepositoriesFromChannel
    rw [Int.toNat_ofNat, readLoop_enough _ ch [] [] (by omega), ← hch]
    simp
  · rw [← hch]
    exact kept_add_logged ch

/-- C9, amended, at the repositories `a`, `b`, `c` of the sample remote. -/
theorem main_receives_one_per_unit_witness :
    (∀ repository ∈ [repoA, repoB, repoC], lbrace ∈ repository.BranchesURL) ∧
    mainLaunch sampleRemote [repoA, repoB, repoC] =
      some [⟨str "a", [str "main", str "dev"], none⟩,
        ⟨str "b", [], some (errorsNew (str "Not Found"))⟩,
        ⟨str "c", [str "main", str ""], some mistypedError⟩] ∧
    ∃ sent, mainLaunch sampleRemote [repoA, repoB, repoC] = some sent ∧
      List.Forall₂ (fun repository m => getBranches sampleRemote repository = some [m])
        [repoA, repoB, repoC] sent ∧
      sent.length = [repoA, repoB, repoC].length ∧
      ∀ ch : List Repository, ch.Perm sent →
        ∃ res, mainCollect [repoA, repoB, repoC] ch = some res ∧
          res.ch = [] ∧
          res.repositories = ch.filter succeeded ∧
          res.log = ch.filterMap failureLine ∧
          res.repositories.length + res.log.length = [repoA, repoB, repoC].length :=
  ⟨by decide, by decide,
    main_receives_one_per_unit sampleRemote [repoA, repoB, repoC] (by decide)⟩

end GithubClient
